import Mathlib

/-!
Verification of the natural-language specification of the `octarine-1`
repository (OSSOS pipeline glue scripts) against its Python source.

Embedded modules:
* `pipeline/astrom_mag_check.py` : `match_lists` (mutual nearest-neighbour
  position matching);
* `daomop/storage.py`            : `copy` (bounded retry loop),
  `datasec_to_list`, `reset_datasec` (cutout / data-section arithmetic);
* `pymop/astrometry/daophot.py`  : zero-point selection and the MAG-column
  construction of `phot`, plus `phot_mag`;
* `ossos/storage/__init__.py`    : `get_uri` and `SyncingVOFile`.

Python strings are embedded as `List Char`; machine floats of the numpy
code are embedded as exact rationals, with the comparison
`sqrt d ≤ t` encoded as `0 ≤ t ∧ d ≤ t * t` on squared separations
(the square root is monotone, so equalities and minima of separations
coincide with equalities and minima of squared separations).
-/

/-! ### `match_lists` from `pipeline/astrom_mag_check.py`

The numpy arrays of x/y positions become lists of rational pairs.
`sep2 p q` is the squared separation that the source computes as
`sqrt((q.x - p.x)**2 + (q.y - p.y)**2)` before taking square roots.
-/

/-- Squared separation between two positions; the source compares
`sqrt (sep2 p q)` values, which order exactly as the `sep2` values do. -/
def sep2 (p q : ℚ × ℚ) : ℚ := (q.1 - p.1) ^ 2 + (q.2 - p.2) ^ 2

/-- `sep.min()` of the source: the minimum squared separation from `p` to the
members of `l` (numpy raises on an empty array; the value returned here for
`[]` is never used by `matchGroup`, whose index range is then empty). -/
def minSep2 (p : ℚ × ℚ) (l : List (ℚ × ℚ)) : ℚ :=
  match l with
  | [] => 0
  | q :: qs => qs.foldl (fun m r => min m (sep2 p r)) (sep2 p q)

/-- `sqrt d ≤ t` for a squared separation `d`, encoded without square roots. -/
def sepLe (d t : ℚ) : Bool := decide (0 ≤ t) && decide (d ≤ t * t)

/-- The source's `match_condition` for index `j` of list `l` relative to
position `p`: within tolerance and of minimal separation. -/
def matchCondition (tol : ℚ) (p : ℚ × ℚ) (l : List (ℚ × ℚ)) (j : Nat) : Bool :=
  sepLe (sep2 p (l.getD j (0, 0))) tol &&
    decide (sep2 p (l.getD j (0, 0)) = minSep2 p l)

/-- `match_group` of the source: the indices of `l` that satisfy
`match_condition` for position `p`. -/
def matchGroup (tol : ℚ) (p : ℚ × ℚ) (l : List (ℚ × ℚ)) : List Nat :=
  (List.range l.length).filter (matchCondition tol p l)

/-- Body of the outer loop of `match_lists` for row `i` of `pos1`: the first
member `j` of `match_group_1` whose own match group contains `i` (the `break`
of the source makes it the first such member); `none` is the masked entry. -/
def matchEntry (tol : ℚ) (pos1 pos2 : List (ℚ × ℚ)) (i : Nat) : Option Nat :=
  (matchGroup tol (pos1.getD i (0, 0)) pos2).find?
    (fun j => (matchGroup tol (pos2.getD j (0, 0)) pos1).contains i)

/-- `match_lists(pos1, pos2, tolerance)`: one entry per row of `pos1`,
`some j` for a match with row `j` of `pos2`, `none` for a masked entry. -/
def match_lists (pos1 pos2 : List (ℚ × ℚ)) (tol : ℚ) : List (Option Nat) :=
  (List.range pos1.length).map (matchEntry tol pos1 pos2)

/-- The mutual, bidirectional nearest-neighbour condition of the claim for
rows `i` of `pos1` and `j` of `pos2`. -/
def mutualMatch (pos1 pos2 : List (ℚ × ℚ)) (t : ℚ) (i j : Nat) : Prop :=
  sepLe (sep2 (pos1.getD i (0, 0)) (pos2.getD j (0, 0))) t = true ∧
  (∀ k, k < pos2.length →
    sep2 (pos1.getD i (0, 0)) (pos2.getD j (0, 0)) ≤
      sep2 (pos1.getD i (0, 0)) (pos2.getD k (0, 0))) ∧
  (∀ k, k < pos1.length →
    sep2 (pos1.getD i (0, 0)) (pos2.getD j (0, 0)) ≤
      sep2 (pos1.getD k (0, 0)) (pos2.getD j (0, 0)))

theorem sep2_comm (p q : ℚ × ℚ) : sep2 p q = sep2 q p := by
  simp only [sep2]; ring

theorem foldl_min_le_init (f : ℚ × ℚ → ℚ) (l : List (ℚ × ℚ)) (acc : ℚ) :
    l.foldl (fun m r => min m (f r)) acc ≤ acc := by
  induction l generalizing acc with
  | nil => simp
  | cons x xs ih =>
    simp only [List.foldl_cons]
    exact le_trans (ih (min acc (f x))) (min_le_left _ _)

theorem foldl_min_le_mem (f : ℚ × ℚ → ℚ) (x : ℚ × ℚ) :
    ∀ (l : List (ℚ × ℚ)) (acc : ℚ), x ∈ l →
      l.foldl (fun m r => min m (f r)) acc ≤ f x := by
  intro l
  induction l with
  | nil => intro acc hx; simp at hx
  | cons y ys ih =>
    intro acc hx
    simp only [List.foldl_cons]
    rcases List.mem_cons.mp hx with h | h
    · subst h
      exact le_trans (foldl_min_le_init f ys _) (min_le_right _ _)
    · exact ih _ h

theorem minSep2_le (p : ℚ × ℚ) (l : List (ℚ × ℚ)) (x : ℚ × ℚ) (hx : x ∈ l) :
    minSep2 p l ≤ sep2 p x := by
  match l with
  | [] => simp at hx
  | q :: qs =>
    simp only [minSep2]
    rcases List.mem_cons.mp hx with h | h
    · subst h; exact foldl_min_le_init _ _ _
    · exact foldl_min_le_mem _ _ _ _ h

theorem minSep2_le_getD (p : ℚ × ℚ) (l : List (ℚ × ℚ)) (k : Nat)
    (hk : k < l.length) : minSep2 p l ≤ sep2 p (l.getD k (0, 0)) := by
  have h1 : l.getD k (0, 0) ∈ l := by
    rw [List.getD_eq_getElem?_getD, List.getElem?_eq_getElem hk]
    exact List.getElem_mem hk
  exact minSep2_le p l _ h1

theorem mem_matchGroup (tol : ℚ) (p : ℚ × ℚ) (l : List (ℚ × ℚ)) (j : Nat)
    (h : j ∈ matchGroup tol p l) :
    j < l.length ∧ sepLe (sep2 p (l.getD j (0, 0))) tol = true ∧
      sep2 p (l.getD j (0, 0)) = minSep2 p l := by
  have h' := List.mem_filter.mp h
  have hr := List.mem_range.mp h'.1
  have hc := h'.2
  simp only [matchCondition, Bool.and_eq_true, decide_eq_true_eq] at hc
  exact ⟨hr, hc.1, hc.2⟩

theorem matchEntry_some (tol : ℚ) (pos1 pos2 : List (ℚ × ℚ)) (i j : Nat)
    (h : matchEntry tol pos1 pos2 i = some j) :
    j < pos2.length ∧ mutualMatch pos1 pos2 tol i j := by
  have hmem : j ∈ matchGroup tol (pos1.getD i (0, 0)) pos2 :=
    List.mem_of_find?_eq_some h
  have hpred := List.find?_some h
  have hg1 := mem_matchGroup _ _ _ _ hmem
  have hi : i ∈ matchGroup tol (pos2.getD j (0, 0)) pos1 := by
    simpa [List.contains] using hpred
  have hg2 := mem_matchGroup _ _ _ _ hi
  refine ⟨hg1.1, hg1.2.1, ?_, ?_⟩
  · intro k hk
    calc sep2 (pos1.getD i (0, 0)) (pos2.getD j (0, 0))
        = minSep2 (pos1.getD i (0, 0)) pos2 := hg1.2.2
      _ ≤ sep2 (pos1.getD i (0, 0)) (pos2.getD k (0, 0)) :=
          minSep2_le_getD _ _ _ hk
  · intro k hk
    have h1 : sep2 (pos1.getD i (0, 0)) (pos2.getD j (0, 0))
        = minSep2 (pos2.getD j (0, 0)) pos1 := by
      rw [sep2_comm]; exact hg2.2.2
    calc sep2 (pos1.getD i (0, 0)) (pos2.getD j (0, 0))
        = minSep2 (pos2.getD j (0, 0)) pos1 := h1
      _ ≤ sep2 (pos2.getD j (0, 0)) (pos1.getD k (0, 0)) :=
          minSep2_le_getD _ _ _ hk
      _ = sep2 (pos1.getD k (0, 0)) (pos2.getD j (0, 0)) := sep2_comm _ _

theorem match_lists_getD (pos1 pos2 : List (ℚ × ℚ)) (t : ℚ) (i : Nat) :
    (match_lists pos1 pos2 t).getD i none =
      if i < pos1.length then matchEntry t pos1 pos2 i else none := by
  by_cases h : i < pos1.length
  · simp [match_lists, List.getD_eq_getElem?_getD, List.getElem?_map,
      List.getElem?_range, h]
  · have hlen : (List.range pos1.length).length ≤ i := by
      simpa using Nat.le_of_not_lt h
    simp [match_lists, List.getD_eq_getElem?_getD, List.getElem?_map,
      List.getElem?_eq_none hlen, h]

/-- C1: every unmasked entry `i ↦ j` of `match_lists pos1 pos2 t` is a mutual
bidirectional nearest-neighbour match within tolerance `t` (distance at most
`t`, `pos2[j]` nearest to `pos1[i]` in `pos2`, `pos1[i]` nearest to `pos2[j]`
in `pos1`), the result has one entry per row of `pos1`, and a row with no
mutually matching index of `pos2` stays masked.  The hypothesis excludes the
empty `pos2` with nonempty `pos1`, on which the numpy source raises inside
`sep.min()` instead of returning. -/
theorem match_lists_spec (pos1 pos2 : List (ℚ × ℚ)) (t : ℚ)
    (hne : pos1 = [] ∨ pos2 ≠ []) :
    (match_lists pos1 pos2 t).length = pos1.length ∧
    (∀ i j, (match_lists pos1 pos2 t).getD i none = some j →
      i < pos1.length ∧ j < pos2.length ∧ mutualMatch pos1 pos2 t i j) ∧
    (∀ i, i < pos1.length → (∀ j, j < pos2.length → ¬ mutualMatch pos1 pos2 t i j) →
      (match_lists pos1 pos2 t).getD i none = none) := by
  clear hne
  refine ⟨by simp [match_lists], ?_, ?_⟩
  · intro i j h
    rw [match_lists_getD] at h
    by_cases hi : i < pos1.length
    · rw [if_pos hi] at h
      have := matchEntry_some _ _ _ _ _ h
      exact ⟨hi, this.1, this.2⟩
    · rw [if_neg hi] at h; exact absurd h (by simp)
  · intro i hi hno
    rw [match_lists_getD, if_pos hi]
    cases he : matchEntry t pos1 pos2 i with
    | none => rfl
    | some j =>
      have := matchEntry_some _ _ _ _ _ he
      exact absurd this.2 (hno j this.1)

/-- Witness for C1 at a concrete input: one source at the origin matched
against one source at distance 1 with tolerance 2. -/
theorem match_lists_spec_witness :
    (match_lists [((0 : ℚ), (0 : ℚ))] [((1 : ℚ), (0 : ℚ))] 2).length = 1 :=
  (match_lists_spec [((0 : ℚ), (0 : ℚ))] [((1 : ℚ), (0 : ℚ))] 2
    (Or.inr (by simp))).1

/-! ### `copy` from `daomop/storage.py`

The remote call `vospace.client.copy(source, destination)` is embedded as an
oracle `client : Nat → Except E A` giving the outcome of each successive
attempt (attempt numbers start at 1, like the source's `count`).  The
`while True` loop is embedded with a structural fuel argument; `copy` passes
`MAX_RETRY` fuel, which the guard `count > MAX_RETRY` never exhausts, so the
fuel-zero branch replays the source's final iteration. -/

/-- `MAX_RETRY = 10` of `daomop/storage.py`. -/
def MAX_RETRY : Nat := 10

/-- One iteration of the `while True` loop of `copy`: try the client, on an
exception increment `count` and re-raise once `count > MAX_RETRY`. -/
def copyAux {E A : Type} (client : Nat → Except E A) (count : Nat) :
    Nat → Except E A
  | 0 =>
    match client count with
    | .ok r => .ok r
    | .error e => .error e
  | fuel + 1 =>
    match client count with
    | .ok r => .ok r
    | .error e =>
      if MAX_RETRY < count + 1 then .error e
      else copyAux client (count + 1) fuel

/-- `storage.copy`: the retry loop started with `count = 1`. -/
def copy {E A : Type} (client : Nat → Except E A) : Except E A :=
  copyAux client 1 MAX_RETRY

theorem copyAux_all_fail {E A : Type} (client : Nat → Except E A) :
    ∀ (fuel count : Nat), MAX_RETRY ≤ count + fuel → 1 ≤ count →
      count ≤ MAX_RETRY →
      (∀ k, count ≤ k → k ≤ MAX_RETRY → ∃ e, client k = .error e) →
      copyAux client count fuel = client MAX_RETRY := by
  intro fuel
  induction fuel with
  | zero =>
    intro count h1 h2 h3 hall
    have hc : count = MAX_RETRY := le_antisymm h3 (by simpa using h1)
    subst hc
    obtain ⟨e, he⟩ := hall MAX_RETRY le_rfl le_rfl
    simp [copyAux, he]
  | succ fuel ih =>
    intro count h1 h2 h3 hall
    obtain ⟨e, he⟩ := hall count le_rfl h3
    by_cases hg : MAX_RETRY < count + 1
    · have hc : count = MAX_RETRY := le_antisymm h3 (Nat.lt_succ_iff.mp hg)
      subst hc
      simp [copyAux, he, hg]
    · have hcount : count + 1 ≤ MAX_RETRY := Nat.lt_of_not_le
        (fun hle => hg (Nat.lt_of_le_of_lt hle (Nat.lt_succ_self _)))
      simp only [copyAux, he, if_neg hg]
      exact ih (count + 1) (by omega) (by omega) hcount
        (fun k hk1 hk2 => hall k (by omega) hk2)

theorem copyAux_error {E A : Type} (client : Nat → Except E A) :
    ∀ (fuel count : Nat) (e : E), MAX_RETRY ≤ count + fuel →
      count ≤ MAX_RETRY → copyAux client count fuel = .error e →
      (∀ k, count ≤ k → k ≤ MAX_RETRY → ∃ e', client k = .error e') ∧
        client MAX_RETRY = .error e := by
  intro fuel
  induction fuel with
  | zero =>
    intro count e h1 h2 hrun
    have hc : count = MAX_RETRY := le_antisymm h2 (by simpa using h1)
    subst hc
    cases hcl : client MAX_RETRY with
    | ok r => simp [copyAux, hcl] at hrun
    | error e' =>
      simp only [copyAux, hcl] at hrun
      rw [Except.error.injEq] at hrun
      subst hrun
      refine ⟨fun k hk1 hk2 => ?_, rfl⟩
      have hk : k = MAX_RETRY := le_antisymm hk2 hk1
      subst hk; exact ⟨e', hcl⟩
  | succ fuel ih =>
    intro count e h1 h2 hrun
    cases hcl : client count with
    | ok r => simp [copyAux, hcl] at hrun
    | error e0 =>
      by_cases hg : MAX_RETRY < count + 1
      · have hc : count = MAX_RETRY := le_antisymm h2 (Nat.lt_succ_iff.mp hg)
        subst hc
        simp only [copyAux, hcl, if_pos hg] at hrun
        rw [Except.error.injEq] at hrun
        subst hrun
        refine ⟨fun k hk1 hk2 => ?_, hcl⟩
        have : k = MAX_RETRY := le_antisymm hk2 hk1
        subst this; exact ⟨e0, hcl⟩
      · simp only [copyAux, hcl, if_neg hg] at hrun
        have hcount : count + 1 ≤ MAX_RETRY := by omega
        obtain ⟨hall, hlast⟩ := ih (count + 1) e (by omega) hcount hrun
        refine ⟨fun k hk1 hk2 => ?_, hlast⟩
        rcases Nat.eq_or_lt_of_le hk1 with h | h
        · exact ⟨e0, h ▸ hcl⟩
        · exact hall k h hk2

theorem copyAux_first_ok {E A : Type} (client : Nat → Except E A) :
    ∀ (fuel count k : Nat) (r : A), count ≤ k → k ≤ count + fuel →
      k ≤ MAX_RETRY → client k = .ok r →
      (∀ m, count ≤ m → m < k → ∃ e, client m = .error e) →
      copyAux client count fuel = .ok r := by
  intro fuel
  induction fuel with
  | zero =>
    intro count k r hk1 hk2 hk3 hok hbefore
    have : k = count := le_antisymm (by simpa using hk2) hk1
    subst this
    simp [copyAux, hok]
  | succ fuel ih =>
    intro count k r hk1 hk2 hk3 hok hbefore
    rcases Nat.eq_or_lt_of_le hk1 with h | h
    · subst h
      simp [copyAux, hok]
    · obtain ⟨e, he⟩ := hbefore count le_rfl h
      have hg : ¬ MAX_RETRY < count + 1 := by omega
      simp only [copyAux, he, if_neg hg]
      exact ih (count + 1) k r h (by omega) hk3 hok
        (fun m hm1 hm2 => hbefore m (by omega) hm2)

theorem copyAux_congr {E A : Type} (client client2 : Nat → Except E A) :
    ∀ (fuel count : Nat), count ≤ MAX_RETRY →
      (∀ k, count ≤ k → k ≤ MAX_RETRY → client k = client2 k) →
      copyAux client count fuel = copyAux client2 count fuel := by
  intro fuel
  induction fuel with
  | zero =>
    intro count h2 heq
    simp only [copyAux, heq count le_rfl h2]
  | succ fuel ih =>
    intro count h2 heq
    simp only [copyAux, heq count le_rfl h2]
    cases client2 count with
    | ok r => rfl
    | error e =>
      by_cases hg : MAX_RETRY < count + 1
      · simp [hg]
      · simp only [if_neg hg]
        exact ih (count + 1) (by omega) (fun k hk1 hk2 => heq k (by omega) hk2)

/-- C2: `storage.copy` is a flat bounded retry loop around one client call.
It raises exactly when every one of the `MAX_RETRY = 10` attempts raises, in
which case it re-raises the last (10th) exception; on the first successful
attempt it returns that attempt's result; and its outcome depends only on
attempts `1..MAX_RETRY`, so the loop never makes more than `MAX_RETRY`
attempts. -/
theorem copy_retry_spec {E A : Type} (client : Nat → Except E A) :
    (∀ e, copy client = .error e →
      (∀ k, 1 ≤ k → k ≤ MAX_RETRY → ∃ e', client k = .error e') ∧
        client MAX_RETRY = .error e) ∧
    ((∀ k, 1 ≤ k → k ≤ MAX_RETRY → ∃ e', client k = .error e') →
      copy client = client MAX_RETRY) ∧
    (∀ k r, 1 ≤ k → k ≤ MAX_RETRY → client k = .ok r →
      (∀ m, 1 ≤ m → m < k → ∃ e, client m = .error e) →
      copy client = .ok r) ∧
    (∀ client2 : Nat → Except E A,
      (∀ k, 1 ≤ k → k ≤ MAX_RETRY → client k = client2 k) →
      copy client = copy client2) := by
  refine ⟨?_, ?_, ?_, ?_⟩
  · intro e he
    exact copyAux_error client MAX_RETRY 1 e (Nat.le_add_left _ _) (by decide) he
  · intro hall
    exact copyAux_all_fail client MAX_RETRY 1 (Nat.le_add_left _ _) le_rfl
      (by decide) hall
  · intro k r hk1 hk2 hok hbefore
    exact copyAux_first_ok client MAX_RETRY 1 k r hk1
      (le_trans hk2 (Nat.le_add_left _ _)) hk2 hok hbefore
  · intro client2 heq
    exact copyAux_congr client client2 MAX_RETRY 1 (by decide) heq

/-- A concrete client for the C2 witness: attempts 1 and 2 raise, attempt 3
succeeds with value 7. -/
def copyClientW : Nat → Except Unit Nat :=
  fun k => if k < 3 then .error () else .ok 7

/-- Witness for C2 at a concrete input: the first success (attempt 3) is
returned. -/
theorem copy_retry_spec_witness : copy copyClientW = .ok 7 :=
  (copy_retry_spec copyClientW).2.2.1 3 7 (by decide) (by decide) rfl
    (fun m h1 h2 => ⟨(), by
      have : m < 3 := h2
      simp [copyClientW, this]⟩)

/-! ### `datasec_to_list` and `reset_datasec` from `daomop/storage.py`

Python strings are embedded as `List Char`.  `pyReplace` embeds
`str.replace` (all non-overlapping occurrences, left to right).  `findall`
embeds `re.findall(r"([-+]?[*\d]+?)[:,\]]+", s)`: because the character
classes `[*\d]` and `[:,\]]` are disjoint, the non-greedy group captures,
at each starting position, an optional sign followed by the whole run of
digit-or-star characters, provided the run is immediately followed by at
least one separator character, and the scan resumes after the separator
run.  `strToInt` embeds `int(-)` on such captured groups (an optional sign
followed by digits; any `*` makes it fail).  A failing conversion, which
the source observes as a caught exception, is `none`.  The dynamic result
type of `reset_datasec` (a string normally, but the already-parsed datasec
list when the substituted cutout fails to parse) is `PyVal`, and an
uncaught `IndexError` (a parsed list with fewer than four entries being
indexed) is `Except.error ()`. -/

/-- `str.replace` worker with structural fuel (one unit per consumed
character); `pyReplace` supplies the string's length, which never runs out.
Only called with nonempty patterns. -/
def replaceAux (pat rep : List Char) : Nat → List Char → List Char
  | 0, s => s
  | fuel + 1, s =>
    match s with
    | [] => []
    | c :: rest =>
      if pat.isPrefixOf s then rep ++ replaceAux pat rep fuel (s.drop pat.length)
      else c :: replaceAux pat rep fuel rest

/-- Python `s.replace(pat, rep)` for nonempty `pat`. -/
def pyReplace (s pat rep : List Char) : List Char :=
  replaceAux pat rep s.length s

/-- The character class `[*\d]` of the datasec regex. -/
def isDigitStar (c : Char) : Bool := c.isDigit || c == '*'

/-- The character class `[:,\]]` of the datasec regex. -/
def isSep (c : Char) : Bool := c == ':' || c == ',' || c == ']'

/-- Does the list start with a separator character? -/
def headIsSep : List Char → Bool
  | [] => false
  | c :: _ => isSep c

/-- Left-to-right scan of `re.findall(r"([-+]?[*\d]+?)[:,\]]+", s)`, with
structural fuel (one unit per consumed character). -/
def findallAux : Nat → List Char → List (List Char)
  | 0, _ => []
  | _ + 1, [] => []
  | fuel + 1, c :: rest =>
    if c == '+' || c == '-' then
      let body := rest.takeWhile isDigitStar
      let after := rest.dropWhile isDigitStar
      if body ≠ [] ∧ headIsSep after = true then
        (c :: body) :: findallAux fuel (after.dropWhile isSep)
      else
        findallAux fuel rest
    else if isDigitStar c then
      let after := rest.dropWhile isDigitStar
      if headIsSep after then
        (c :: rest.takeWhile isDigitStar) :: findallAux fuel (after.dropWhile isSep)
      else
        findallAux fuel after
    else
      findallAux fuel rest

/-- `re.findall(r"([-+]?[*\d]+?)[:,\]]+", s)`, the captured groups. -/
def findall (s : List Char) : List (List Char) := findallAux s.length s

/-- Numeric value of a decimal digit character. -/
def digitVal (c : Char) : Nat := c.toNat - 48

/-- Value of a nonempty all-digit string. -/
def digitsToNat (l : List Char) : Option Nat :=
  if l ≠ [] ∧ l.all Char.isDigit then
    some (l.foldl (fun a c => 10 * a + digitVal c) 0)
  else none

/-- Python `int(s)` on a captured group: optional sign then digits; fails
(raises, embedded as `none`) on anything else, in particular on `*`. -/
def strToInt (s : List Char) : Option Int :=
  match s with
  | '-' :: rest => (digitsToNat rest).map (fun n => -(n : Int))
  | '+' :: rest => (digitsToNat rest).map (fun n => (n : Int))
  | _ => (digitsToNat s).map (fun n => (n : Int))

/-- `datasec_to_list(datasec)`: the integer conversions of all captured
groups; `none` embeds the exception raised by a failing `int(-)`. -/
def datasec_to_list (datasec : List Char) : Option (List Int) :=
  (findall datasec).mapM strToInt

/-- `str(i)` for a Python integer. -/
def intChars (i : Int) : List Char := (toString i).toList

/-- The four wildcard substitutions of `reset_datasec` applied to the cutout
string after its spaces are removed, in source order.  Note that the last
one (`",*]"`) inserts `naxis1`, exactly as the source does. -/
def substituted_cutout (c : List Char) (naxis1 naxis2 : Int) : List Char :=
  let c1 := pyReplace c " ".toList []
  let c2 := pyReplace c1 "[-*,".toList (intChars naxis1 ++ ":1,".toList)
  let c3 := pyReplace c2 ",-*]".toList (",".toList ++ intChars naxis2 ++ ":1]".toList)
  let c4 := pyReplace c3 "[*,".toList ("[1:".toList ++ intChars naxis1 ++ ",".toList)
  pyReplace c4 ",*]".toList (",1:".toList ++ intChars naxis1 ++ "]".toList)

/-- A Python value returned by `reset_datasec`: normally a string, but the
already-parsed list of integers on one error path. -/
inductive PyVal where
  | pstr (s : List Char)
  | plist (l : List Int)
deriving DecidableEq

/-- `"[{}:{},{}:{}]".format(a, b, c, d)`. -/
def fmtDatasec (a b c d : Int) : List Char :=
  "[".toList ++ intChars a ++ ":".toList ++ intChars b ++ ",".toList ++
    intChars c ++ ":".toList ++ intChars d ++ "]".toList

/-- `reset_datasec(cutout, datasec, naxis1, naxis2)`.  `Except.error ()` is
an uncaught `IndexError` (fewer than four parsed integers being indexed by
the adjustment, flip/flop and clipping steps, all of which read indices
0..3 of both lists). -/
def reset_datasec (cutout : Option (List Char)) (datasec : List Char)
    (naxis1 naxis2 : Int) : Except Unit PyVal :=
  match cutout with
  | none => .ok (.pstr datasec)
  | some c =>
    if c = "[*,*]".toList then .ok (.pstr datasec)
    else
      match datasec_to_list datasec with
      | none => .ok (.pstr datasec)
      | some ds =>
        match datasec_to_list (substituted_cutout c naxis1 naxis2) with
        | none => .ok (.plist ds)
        | some co0 =>
          -- cutout likely starts with extension, remove
          let co1 := if co0.length = 5 then co0.drop 1 else co0
          if co1.length < 4 then .error ()
          else if ds.length < 4 then .error ()
          else
            -- -ve integer offsets indicate offset from the end of array.
            let cx1 := co1.getD 0 0
            let cx2 := co1.getD 1 0
            let cy1 := co1.getD 2 0
            let cy2 := co1.getD 3 0
            let cx1 := if cx1 < 0 then naxis1 - cx1 + 1 else cx1
            let cx2 := if cx2 < 0 then naxis1 - cx2 + 1 else cx2
            let cy1 := if cy1 < 0 then naxis2 - cy1 + 1 else cy1
            let cy2 := if cy2 < 0 then naxis2 - cy2 + 1 else cy2
            let flip := cx1 > cx2
            let flop := cy1 > cy2
            let a := ds.getD 0 0
            let b := ds.getD 1 0
            let c2 := ds.getD 2 0
            let d2 := ds.getD 3 0
            let cx1' := if flip then naxis1 - cx1 + 1 else cx1
            let a' := if flip then naxis1 - b + 1 else a
            let b' := if flip then naxis1 - a + 1 else b
            let cy1' := if flop then naxis2 - cy1 + 1 else cy1
            let c2' := if flop then naxis2 - d2 + 1 else c2
            let d2' := if flop then naxis2 - c2 + 1 else d2
            .ok (.pstr (fmtDatasec
              (max (a' - cx1' + 1) 1) (min (b' - cx1' + 1) naxis1)
              (max (c2' - cy1' + 1) 1) (min (d2' - cy1' + 1) naxis2)))

/-- C3: with no cutout (`None`) or with the whole-image cutout `"[*,*]"`,
`reset_datasec` returns the datasec argument unchanged. -/
theorem reset_datasec_identity (datasec : List Char) (naxis1 naxis2 : Int) :
    reset_datasec none datasec naxis1 naxis2 = .ok (.pstr datasec) ∧
    reset_datasec (some "[*,*]".toList) datasec naxis1 naxis2 =
      .ok (.pstr datasec) := by
  exact ⟨rfl, by simp [reset_datasec]⟩

/-- C4 counterexample: for the cutout `[11:20,1:100]` of a 100×100 image and
data section `[1:100,1:100]`, `reset_datasec` returns `[1:90,1:100]`, whose
x upper bound 90 exceeds the x extent `20 - 11 + 1 = 10` of the cutout
image: the result is clipped to the original image extent, not to the
extent of the cutout. -/
theorem reset_datasec_clip_counterexample :
    reset_datasec (some "[11:20,1:100]".toList) "[1:100,1:100]".toList 100 100
      = .ok (.pstr "[1:90,1:100]".toList) ∧ ¬ ((90 : Int) ≤ 20 - 11 + 1) :=
  ⟨rfl, by decide⟩

/-- C4 (amended): for a cutout whose substituted form parses as
`[x1, x2, y1, y2]` with `1 ≤ x1 ≤ x2 ≤ naxis1` and `1 ≤ y1 ≤ y2 ≤ naxis2`,
and a data section parsing as `[a, b, c, d]`, `reset_datasec` translates the
data-section window by `x1 - 1` and `y1 - 1` and clips it to the original
image extents `[1, naxis1] × [1, naxis2]` (not to the extent of the
cutout). -/
theorem reset_datasec_remap (cs ds : List Char) (n1 n2 x1 x2 y1 y2 a b c d : Int)
    (hne : cs ≠ "[*,*]".toList)
    (hds : datasec_to_list ds = some [a, b, c, d])
    (hco : datasec_to_list (substituted_cutout cs n1 n2) = some [x1, x2, y1, y2])
    (hx1 : 1 ≤ x1) (hx2 : x1 ≤ x2) (hx3 : x2 ≤ n1)
    (hy1 : 1 ≤ y1) (hy2 : y1 ≤ y2) (hy3 : y2 ≤ n2) :
    reset_datasec (some cs) ds n1 n2 =
      .ok (.pstr (fmtDatasec (max (a - x1 + 1) 1) (min (b - x1 + 1) n1)
        (max (c - y1 + 1) 1) (min (d - y1 + 1) n2))) := by
  simp only [reset_datasec, if_neg hne, hds, hco]
  norm_num [List.getD]
  rw [if_neg (by omega : ¬ (x1 < 0)), if_neg (by omega : ¬ (x2 < 0)),
    if_neg (by omega : ¬ (y1 < 0)), if_neg (by omega : ¬ (y2 < 0)),
    if_neg (by omega : ¬ (x1 > x2)), if_neg (by omega : ¬ (x1 > x2)),
    if_neg (by omega : ¬ (x1 > x2)), if_neg (by omega : ¬ (y1 > y2)),
    if_neg (by omega : ¬ (y1 > y2)), if_neg (by omega : ¬ (y1 > y2))]

/-- Witness for C4's amended theorem at a concrete input. -/
theorem reset_datasec_remap_witness :
    reset_datasec (some "[11:20,21:40]".toList) "[3:120,5:90]".toList 100 100
      = .ok (.pstr "[1:100,1:70]".toList) := by
  have h := reset_datasec_remap "[11:20,21:40]".toList "[3:120,5:90]".toList
    100 100 11 20 21 40 3 120 5 90 (by decide) (by decide) (by decide)
    (by decide) (by decide) (by decide) (by decide) (by decide) (by decide)
  exact h.trans (by rfl)

/-- C5: evaluation of the wildcard substitutions of `reset_datasec`.  The
x-side wildcard `"[*,"` is expanded with `naxis1` (as the claim states), but
the y-side wildcard `",*]"` is also expanded with `naxis1` — not with
`naxis2`, the y extent that the claim (and the parallel `",-*]"` branch of
the source, which does use `naxis2`) calls for. -/
theorem substituted_cutout_wildcard_eval :
    substituted_cutout "[*,1:2]".toList 5 7 = "[1:5,1:2]".toList ∧
    substituted_cutout "[1:2,*]".toList 5 7 = "[1:2,1:5]".toList ∧
    "[1:2,1:5]".toList ≠ "[1:2,1:7]".toList :=
  ⟨by decide, by decide, by decide⟩

/-- C9 counterexample: a cutout string that parses to fewer than four
integers makes `reset_datasec` raise an uncaught `IndexError` instead of
returning the datasec unchanged. -/
theorem reset_datasec_raises_counterexample :
    reset_datasec (some "[1:2]".toList) "[1:4,1:4]".toList 10 10 = .error () :=
  rfl

/-- C9 (amended): `reset_datasec` catches exactly the integer-conversion
errors: if the datasec argument fails to parse, the original datasec string
is returned unchanged; if the substituted cutout string fails to parse, the
already-parsed datasec list (not the original string) is returned.  Parses
that succeed with fewer than four integers instead raise an uncaught
`IndexError` (see the counterexample). -/
theorem reset_datasec_parse_errors (cs ds : List Char) (n1 n2 : Int)
    (l : List Int) (hne : cs ≠ "[*,*]".toList) :
    (datasec_to_list ds = none →
      reset_datasec (some cs) ds n1 n2 = .ok (.pstr ds)) ∧
    (datasec_to_list ds = some l →
      datasec_to_list (substituted_cutout cs n1 n2) = none →
      reset_datasec (some cs) ds n1 n2 = .ok (.plist l)) := by
  have hne' : ¬ cs = ['[', '*', ',', '*', ']'] := by simpa using hne
  constructor
  · intro h
    simp [reset_datasec, h, hne']
  · intro h1 h2
    simp [reset_datasec, h1, h2, hne']

/-- Witness for C9's amended theorem: an unparseable datasec is returned
unchanged. -/
theorem reset_datasec_parse_errors_witness :
    reset_datasec (some "[1:2,3:4]".toList) "[*:2,3:4]".toList 10 10
      = .ok (.pstr "[*:2,3:4]".toList) :=
  (reset_datasec_parse_errors "[1:2,3:4]".toList "[*:2,3:4]".toList 10 10 []
    (by decide)).1 (by decide)

/-! ### `phot` and `phot_mag` from `pymop/astrometry/daophot.py`

The zero-point selection of `phot` reads the image header (`FILTER`,
`PHOTZP`) and the optional local file `zeropoint.used`; these external
inputs are passed as parameters: `headerFilter` is `header.get('FILTER')`
(`none` when absent, in which case the source's `'DEFAULT'` fallback
applies), `photzp` is `header.get('PHOTZP')`, and `zeropointUsed` is the
float contents of a readable `zeropoint.used` file (`none` when the file is
not readable).  Magnitudes are exact rationals.

The per-line output loop of `phot` splits each `pdump` line into tokens and
pops one token per column of `hdu['order']`; the numeric conversions of the
tokens are at the embedding boundary, so a line is a list of rationals.
The float/int dispatch on the `'%10.2f'`-style format strings only decides
which conversion is applied to a token; both are the identity here, and the
`MAG` column is the single specially-treated case, with `apcor`
subtracted before the append. -/

/-- The CFHT zero-point table of `phot` (`25.77` etc. as exact rationals). -/
def zeropoints : List (String × ℚ) :=
  [("I", 2577/100), ("R", 2607/100), ("V", 2607/100), ("B", 2592/100),
   ("DEFAULT", 26), ("g.MP9401", 264/10)]

/-- The zero-point selection of `phot`: filter defaulted to `"DEFAULT"` and
forced into the table, `zmag` from `PHOTZP` else the table, overridden by a
readable `zeropoint.used`. -/
def select_zmag (headerFilter : Option String) (photzp : Option ℚ)
    (zeropointUsed : Option ℚ) : ℚ :=
  let f0 := headerFilter.getD "DEFAULT"
  let f := if (zeropoints.lookup f0).isSome then f0 else "DEFAULT"
  let zmag :=
    match photzp with
    | some p => p
    | none => (zeropoints.lookup f).getD 0
  match zeropointUsed with
  | some z => z
  | none => zmag

/-- C6: `phot` selects the zero point with precedence: a readable
`zeropoint.used` file first, then the header's `PHOTZP`, then the
per-filter default, with the `"DEFAULT"` entry (26.0) used when the
header's filter is not in the table. -/
theorem select_zmag_precedence :
    (∀ hf pp z, select_zmag hf pp (some z) = z) ∧
    (∀ hf p, select_zmag hf (some p) none = p) ∧
    (∀ f q, zeropoints.lookup f = some q →
      select_zmag (some f) none none = q) ∧
    (∀ f, zeropoints.lookup f = none → select_zmag (some f) none none = 26) := by
  refine ⟨fun hf pp z => rfl, fun hf p => rfl, ?_, ?_⟩
  · intro f q h
    simp [select_zmag, h]
  · intro f h
    simp [select_zmag, h]
    rfl

/-- Witness for C6: an unknown filter falls back to the DEFAULT zero point
26.0. -/
theorem select_zmag_precedence_witness :
    select_zmag (some "u.MP9301") none none = 26 :=
  select_zmag_precedence.2.2.2 "u.MP9301" (by decide)

/-- One line of the `pdump` output loop of `phot`: pop one token per column
in `hdu['order']`, subtracting `apcor` from the popped token for the `MAG`
column; `none` embeds the `IndexError` of popping an exhausted token list.
`data` is `hdu['data']` as a map from column name to column. -/
def popCols (apcor : ℚ) : List String → List ℚ → (String → List ℚ) →
    Option (String → List ℚ)
  | [], _, data => some data
  | col :: cols, values, data =>
    match values with
    | [] => none
    | v :: vs =>
      let v' := if col = "MAG" then v - apcor else v
      popCols apcor cols vs (fun c => if c = col then data c ++ [v'] else data c)

/-- `hdu['order']` of `phot`. -/
def colOrder : List String :=
  ["X", "Y", "MAG", "MERR", "ID", "XSHIFT", "YSHIFT", "LID"]

/-- The data-accumulation loop of `phot` over the `pdump` output lines,
starting from the empty columns. -/
def phot_hdu_data (apcor : ℚ) (lines : List (List ℚ)) :
    Option (String → List ℚ) :=
  lines.foldlM (fun data line => popCols apcor colOrder line data)
    (fun _ => [])

/-- `phot_mag`: the first element of the `MAG` column of `phot`'s result
(`none` embeds the `IndexError` of `[0]` on an empty column). -/
def phot_mag (apcor : ℚ) (lines : List (List ℚ)) : Option ℚ := do
  let data ← phot_hdu_data apcor lines
  (data "MAG").head?

theorem popCols_colOrder (apcor : ℚ) (v0 v1 v2 v3 v4 v5 v6 v7 : ℚ)
    (rest : List ℚ) (data : String → List ℚ) :
    popCols apcor colOrder (v0 :: v1 :: v2 :: v3 :: v4 :: v5 :: v6 :: v7 :: rest)
        data
      = some (fun c =>
          if c = "LID" then data c ++ [v7]
          else if c = "YSHIFT" then data c ++ [v6]
          else if c = "XSHIFT" then data c ++ [v5]
          else if c = "ID" then data c ++ [v4]
          else if c = "MERR" then data c ++ [v3]
          else if c = "MAG" then data c ++ [v2 - apcor]
          else if c = "Y" then data c ++ [v1]
          else if c = "X" then data c ++ [v0]
          else data c) := by
  simp only [colOrder, popCols]
  norm_num
  funext c
  by_cases h0 : c = "LID" <;> by_cases h1 : c = "YSHIFT" <;>
    by_cases h2 : c = "XSHIFT" <;> by_cases h3 : c = "ID" <;>
    by_cases h4 : c = "MERR" <;> by_cases h5 : c = "MAG" <;>
    by_cases h6 : c = "Y" <;> by_cases h7 : c = "X" <;>
    simp_all

theorem phot_hdu_data_mag (apcor : ℚ) :
    ∀ (lines : List (List ℚ)) (data : String → List ℚ),
      (∀ l ∈ lines, 8 ≤ l.length) →
      ∃ d, lines.foldlM (fun data line => popCols apcor colOrder line data) data
          = some d ∧
        d "MAG" = data "MAG" ++ lines.map (fun l => l.getD 2 0 - apcor) := by
  intro lines
  induction lines with
  | nil => intro data _; exact ⟨data, rfl, by simp⟩
  | cons l ls ih =>
    intro data h
    have hl : 8 ≤ l.length := h l (List.mem_cons_self _ _)
    rcases l with _ | ⟨v0, l⟩; · simp at hl
    rcases l with _ | ⟨v1, l⟩; · simp at hl
    rcases l with _ | ⟨v2, l⟩; · simp at hl
    rcases l with _ | ⟨v3, l⟩; · simp at hl
    rcases l with _ | ⟨v4, l⟩; · simp at hl
    rcases l with _ | ⟨v5, l⟩; · simp at hl
    rcases l with _ | ⟨v6, l⟩; · simp at hl
    rcases l with _ | ⟨v7, l⟩; · simp at hl
    obtain ⟨d, hd, hmag⟩ := ih
      (fun c =>
        if c = "LID" then data c ++ [v7]
        else if c = "YSHIFT" then data c ++ [v6]
        else if c = "XSHIFT" then data c ++ [v5]
        else if c = "ID" then data c ++ [v4]
        else if c = "MERR" then data c ++ [v3]
        else if c = "MAG" then data c ++ [v2 - apcor]
        else if c = "Y" then data c ++ [v1]
        else if c = "X" then data c ++ [v0]
        else data c)
      (fun l' hl' => h l' (List.mem_cons_of_mem _ hl'))
    refine ⟨d, ?_, ?_⟩
    · simpa [List.foldlM_cons, popCols_colOrder] using hd
    · rw [hmag]
      simp [List.getD]
/-- C8: in the `pdump` output loop of `phot`, the value appended to the
`MAG` column is the package-reported magnitude (the third token of the
line, after `X` and `Y`) minus the `apcor` argument, and `phot_mag`
returns exactly the first element of that `MAG` column.  The hypothesis
says each line has a token for each of the eight columns, as `pdump`
guarantees (a shorter line would make the source's `values.pop(0)`
raise). -/
theorem phot_mag_spec (apcor : ℚ) (lines : List (List ℚ))
    (h : ∀ l ∈ lines, 8 ≤ l.length) :
    ∃ d, phot_hdu_data apcor lines = some d ∧
      d "MAG" = lines.map (fun l => l.getD 2 0 - apcor) ∧
      phot_mag apcor lines = (d "MAG").head? := by
  obtain ⟨d, hd, hmag⟩ := phot_hdu_data_mag apcor lines (fun _ => []) h
  refine ⟨d, hd, by simpa using hmag, ?_⟩
  simp [phot_mag, phot_hdu_data, hd]

/-- Witness for C8 at one concrete `pdump` line: reported magnitude 3,
aperture correction 1/2, stored and returned magnitude 5/2. -/
theorem phot_mag_spec_witness :
    ∃ d, phot_hdu_data (1/2) [[1, 2, 3, 4, 5, 6, 7, 8]] = some d ∧
      d "MAG" = [(5 : ℚ)/2] ∧
      phot_mag (1/2) [[1, 2, 3, 4, 5, 6, 7, 8]] = (d "MAG").head? := by
  have h := phot_mag_spec (1/2) [[1, 2, 3, 4, 5, 6, 7, 8]] (by simp)
  obtain ⟨d, h1, h2, h3⟩ := h
  refine ⟨d, h1, ?_, h3⟩
  rw [h2]
  norm_num

/-! ### `get_uri` and `SyncingVOFile` from `ossos/storage/__init__.py`

`pathJoin` embeds `os.path.join` on two components (the three-component
call of the source folds it from the left): an absolute second component
replaces the first; an empty first component or one ending in `'/'` is
concatenated directly; otherwise a `'/'` separator is inserted.  `expnum`
is used by the source only through `str(expnum)`, so it is a string here;
`ccd` is a Python integer rendered with `str(-).zfill(2)`. -/

/-- `DBIMAGES = 'vos:OSSOS/dbimages'`. -/
def DBIMAGES : List Char := "vos:OSSOS/dbimages".toList

/-- Does the path component start with `'/'` (is absolute)? -/
def startsWithSlash : List Char → Bool
  | '/' :: _ => true
  | _ => false

/-- Does the path component end with `'/'`? -/
def endsWithSlash (l : List Char) : Bool := l.getLast? = some '/'

/-- `os.path.join(a, b)`. -/
def pathJoin (a b : List Char) : List Char :=
  if startsWithSlash b then b
  else if a = [] then b
  else if endsWithSlash a then a ++ b
  else a ++ '/' :: b

/-- Python `s.zfill(width)`: pad with leading zeros to `width`, keeping a
leading sign in front of the padding. -/
def zfill (width : Nat) (s : List Char) : List Char :=
  if width ≤ s.length then s
  else
    match s with
    | c :: rest =>
      if c = '+' ∨ c = '-' then
        c :: List.replicate (width - s.length) '0' ++ rest
      else List.replicate (width - s.length) '0' ++ s
    | [] => List.replicate width '0'

/-- The `ext` normalisation of `get_uri`: `None` becomes `''`; a nonempty
extension not starting with `'.'` gets a `'.'` prepended. -/
def extDot : Option (List Char) → List Char
  | none => []
  | some e =>
    match e with
    | [] => []
    | c :: _ => if c ≠ '.' then '.' :: e else e

/-- `get_uri(expnum, ccd, version, ext, subdir, prefix)` (the `prefix`
parameter is `pfx` here). -/
def get_uri (expnum : List Char) (ccd : Option Int) (version : List Char)
    (ext : Option (List Char)) (subdir : Option (List Char))
    (pfx : Option (List Char)) : List Char :=
  let sd := subdir.getD expnum
  let p := pfx.getD []
  let uri := pathJoin DBIMAGES sd
  let e := extDot ext
  match ccd with
  | some cc =>
    let ccdStr := zfill 2 (intChars cc)
    pathJoin (pathJoin uri ("ccd".toList ++ ccdStr))
      (p ++ expnum ++ version ++ ccdStr ++ e)
  | none => pathJoin uri (p ++ expnum ++ version ++ e)

theorem startsWithSlash_ccd (t : List Char) :
    startsWithSlash ("ccd".toList ++ t) = false := rfl

theorem pathJoin_not_slash (a b : List Char) (h1 : startsWithSlash b = false)
    (h2 : a ≠ []) (h3 : endsWithSlash a = false) :
    pathJoin a b = a ++ '/' :: b := by
  rw [pathJoin, if_neg (by simp [h1]), if_neg h2, if_neg (by simp [h3])]

/-- C7: under slash-hygiene hypotheses on the components (the effective
subdirectory is nonempty, not absolute and has no trailing slash; the file
name is not absolute; the `ccdNN` component has no trailing slash),
`get_uri` returns `DBIMAGES/subdir/ccdNN/{prefix}{expnum}{version}NN{ext}`
for a given ccd and `DBIMAGES/subdir/{prefix}{expnum}{version}{ext}` for
`ccd = None`, where `subdir` defaults to the exposure number, the prefix
defaults to empty, `NN` is the ccd zero-filled to two digits, and the
extension is `''` for `None` and gets a leading `'.'` prepended when
nonempty and not already starting with one. -/
theorem get_uri_spec (expnum version : List Char)
    (ext subdir pfx : Option (List Char))
    (hsd1 : startsWithSlash (subdir.getD expnum) = false)
    (hsd2 : endsWithSlash (subdir.getD expnum) = false)
    (hsd3 : subdir.getD expnum ≠ []) :
    (∀ cc : Int,
      startsWithSlash (pfx.getD [] ++ expnum ++ version ++
        zfill 2 (intChars cc) ++ extDot ext) = false →
      endsWithSlash ("ccd".toList ++ zfill 2 (intChars cc)) = false →
      get_uri expnum (some cc) version ext subdir pfx =
        ((DBIMAGES ++ '/' :: subdir.getD expnum) ++
          '/' :: ("ccd".toList ++ zfill 2 (intChars cc))) ++
          '/' :: (pfx.getD [] ++ expnum ++ version ++
            zfill 2 (intChars cc) ++ extDot ext)) ∧
    (startsWithSlash (pfx.getD [] ++ expnum ++ version ++ extDot ext) = false →
      get_uri expnum none version ext subdir pfx =
        (DBIMAGES ++ '/' :: subdir.getD expnum) ++
          '/' :: (pfx.getD [] ++ expnum ++ version ++ extDot ext)) := by
  have huri : pathJoin DBIMAGES (subdir.getD expnum) =
      DBIMAGES ++ '/' :: subdir.getD expnum :=
    pathJoin_not_slash _ _ hsd1 (by decide) (by decide)
  have huri_ne : DBIMAGES ++ '/' :: subdir.getD expnum ≠ [] := by simp
  have huri_last :
      endsWithSlash (DBIMAGES ++ '/' :: subdir.getD expnum) = false := by
    rcases hcase : subdir.getD expnum with _ | ⟨c, cs⟩
    · exact absurd hcase hsd3
    · rw [endsWithSlash, List.getLast?_append_cons, List.getLast?_cons_cons]
      rw [endsWithSlash, hcase] at hsd2
      exact hsd2
  constructor
  · intro cc hfn hccd
    have hj2 : pathJoin (DBIMAGES ++ '/' :: subdir.getD expnum)
        ("ccd".toList ++ zfill 2 (intChars cc)) =
        (DBIMAGES ++ '/' :: subdir.getD expnum) ++
          '/' :: ("ccd".toList ++ zfill 2 (intChars cc)) :=
      pathJoin_not_slash _ _ (startsWithSlash_ccd _) huri_ne huri_last
    have hmid_ne : (DBIMAGES ++ '/' :: subdir.getD expnum) ++
        '/' :: ("ccd".toList ++ zfill 2 (intChars cc)) ≠ [] := by simp
    have hmid_last : endsWithSlash ((DBIMAGES ++ '/' :: subdir.getD expnum) ++
        '/' :: ("ccd".toList ++ zfill 2 (intChars cc))) = false := by
      rw [endsWithSlash, List.getLast?_append_cons]
      show decide (('/' :: 'c' :: 'c' :: 'd' :: zfill 2 (intChars cc)).getLast?
        = some '/') = false
      rw [List.getLast?_cons_cons, List.getLast?_cons_cons,
        List.getLast?_cons_cons]
      rw [endsWithSlash] at hccd
      rw [show ("ccd".toList ++ zfill 2 (intChars cc)) =
        'c' :: 'c' :: 'd' :: zfill 2 (intChars cc) from rfl,
        List.getLast?_cons_cons, List.getLast?_cons_cons] at hccd
      exact hccd
    have hj3 : pathJoin ((DBIMAGES ++ '/' :: subdir.getD expnum) ++
        '/' :: ("ccd".toList ++ zfill 2 (intChars cc)))
        (pfx.getD [] ++ expnum ++ version ++ zfill 2 (intChars cc) ++
          extDot ext) =
        ((DBIMAGES ++ '/' :: subdir.getD expnum) ++
          '/' :: ("ccd".toList ++ zfill 2 (intChars cc))) ++
          '/' :: (pfx.getD [] ++ expnum ++ version ++ zfill 2 (intChars cc) ++
            extDot ext) :=
      pathJoin_not_slash _ _ hfn hmid_ne hmid_last
    simp only [get_uri]
    rw [huri, hj2, hj3]
  · intro hfn
    have hj : pathJoin (DBIMAGES ++ '/' :: subdir.getD expnum)
        (pfx.getD [] ++ expnum ++ version ++ extDot ext) =
        (DBIMAGES ++ '/' :: subdir.getD expnum) ++
          '/' :: (pfx.getD [] ++ expnum ++ version ++ extDot ext) :=
      pathJoin_not_slash _ _ hfn huri_ne huri_last
    simp only [get_uri]
    rw [huri, hj]

/-- Witness for C7 at a concrete input: exposure 123456, ccd 7, version p,
extension fits, default subdirectory and prefix. -/
theorem get_uri_spec_witness :
    get_uri "123456".toList (some 7) "p".toList (some "fits".toList) none none
      = "vos:OSSOS/dbimages/123456/ccd07/123456p07.fits".toList := by
  have h := (get_uri_spec "123456".toList "p".toList (some "fits".toList)
    none none (by decide) (by decide) (by decide)).1 7 (by decide) (by decide)
  exact h.trans (by decide)

/-! ### `SyncingVOFile` from `ossos/storage/__init__.py`

The class keeps its state in a local file handle opened in mode `"a+b"`:
appended content and a read position.  That state is the pair
`(contents, pos)` here.  `read` embeds `seek(0)` followed by a full read
(position moves to the end); `write` embeds an append-mode write (content
goes after all existing content regardless of the position); `seek` is the
source's literal `pass`. -/

structure SyncingVOFile where
  contents : List Char
  pos : Nat

/-- `SyncingVOFile.read`: seek to 0, then return the whole contents. -/
def SyncingVOFile.read (f : SyncingVOFile) : List Char × SyncingVOFile :=
  (f.contents, { f with pos := f.contents.length })

/-- `SyncingVOFile.write`: append-mode write of `c`. -/
def SyncingVOFile.write (f : SyncingVOFile) (c : List Char) : SyncingVOFile :=
  { contents := f.contents ++ c, pos := f.contents.length + c.length }

/-- `SyncingVOFile.seek`: a no-op (`pass`). -/
def SyncingVOFile.seek (f : SyncingVOFile) (offset : Int) : SyncingVOFile := f

/-- A step of a client interaction with a `SyncingVOFile`. -/
inductive FileOp where
  | rd : FileOp
  | wr (c : List Char) : FileOp
  | sk (offset : Int) : FileOp

/-- Apply one operation to the file state. -/
def applyOp (f : SyncingVOFile) : FileOp → SyncingVOFile
  | .rd => (SyncingVOFile.read f).2
  | .wr c => f.write c
  | .sk n => f.seek n

/-- Run a sequence of operations. -/
def runOps (f : SyncingVOFile) (ops : List FileOp) : SyncingVOFile :=
  ops.foldl applyOp f

/-- The written chunks of an operation sequence, concatenated in order. -/
def writesOf : List FileOp → List Char
  | [] => []
  | .wr c :: rest => c ++ writesOf rest
  | .rd :: rest => writesOf rest
  | .sk _ :: rest => writesOf rest

theorem runOps_contents :
    ∀ (ops : List FileOp) (f : SyncingVOFile),
      (runOps f ops).contents = f.contents ++ writesOf ops := by
  intro ops
  induction ops with
  | nil => intro f; simp [runOps, writesOf]
  | cons op rest ih =>
    intro f
    cases op with
    | rd =>
      show (runOps ((SyncingVOFile.read f).2) rest).contents = _
      rw [ih]
      simp [SyncingVOFile.read, writesOf]
    | wr c =>
      show (runOps (f.write c) rest).contents = _
      rw [ih]
      simp [SyncingVOFile.write, writesOf]
    | sk n =>
      show (runOps (f.seek n) rest).contents = _
      rw [ih]
      simp [SyncingVOFile.seek, writesOf]

/-- C10: for a `SyncingVOFile` starting with `init` contents, after any
interleaving of reads, writes and seeks, `read` returns the initial
contents followed by all written chunks in order; `read` always returns
the entire contents from the beginning, `write` appends after all
previous content, and `seek` is a no-op on the file state. -/
theorem syncing_vofile_spec (init : List Char) (ops : List FileOp) :
    ((runOps { contents := init, pos := 0 } ops).read).1 = init ++ writesOf ops ∧
    (∀ f : SyncingVOFile, (f.read).1 = f.contents) ∧
    (∀ (f : SyncingVOFile) (c : List Char),
      (f.write c).contents = f.contents ++ c) ∧
    (∀ (f : SyncingVOFile) (n : Int), f.seek n = f) := by
  refine ⟨?_, fun f => rfl, fun f c => rfl, fun f n => rfl⟩
  show (runOps { contents := init, pos := 0 } ops).contents = _
  exact runOps_contents ops _
